import Mathlib

/-!
Verification of the RAG pipeline in rag-semantic-kernel-mongodb-vcore
(rag-azure-openai-cosmosdb-notebook.ipynb).

The notebook's pipeline is embedded shallowly:
  * `upsert_data_to_memory_store` models the ingestion helper of cell 11:
    the JSON file is parsed first; then for each item, an existence check
    by id is attempted (`store.get` wrapped in try/except so that any
    exception means "not created"), and absent items are embedded and
    written via `memory.save_information` (text, description and embedding
    written together as one record).
  * `conversationLoop` models the RAG loop of cell 41:
    `while query_term != "exit": query_term = input(); result = search(...);
    invoke_stream(chat_function, args(query_term, result[0].additional_metadata))`.
  * `vectorSearch` models the vector store's similarity search; the search
    itself runs inside Azure Cosmos DB / semantic kernel, outside this
    repository, so it is modelled from the spec (stable descending sort by
    the configured metric's relevance score).

External effects (embedding calls, writes, existence probes, faults raised
by the storage layer) are made explicit: faults are an oracle indexed by
the loop step, and an ingestion run returns the final store plus the lists
of embedding calls and writes it performed.
-/

namespace RagNotebook

/-- Embedding vectors (text-embedding-ada-002 vectors, 1536 floats in the
deployment; dimensionality plays no role in the claims). -/
abbrev Vec := List ℚ

/-- One input item of the JSON data file: required fields `id`, `content`
(source of the embedding) and `title` (display description). -/
structure Item where
  id : String
  content : String
  title : String
deriving DecidableEq

/-- A stored memory record as written by `memory.save_information`:
text, description and the embedding generated from the text, written
together. -/
structure MemoryRecord where
  text : String
  description : String
  embedding : Vec
deriving DecidableEq

/-- The collection state: records keyed by id, kept in insertion order. -/
abbrev Store := List (String × MemoryRecord)

/-- Lookup by record id (models `store.get(collection_name, id)` hitting or
missing). -/
def findRec : Store → String → Option MemoryRecord
  | [], _ => none
  | (k, r) :: t, id => if k = id then some r else findRec t id

/-- Upsert: overwrite the record stored under `id` in place, or append a new
one. -/
def upsertRec : Store → String → MemoryRecord → Store
  | [], id, r => [(id, r)]
  | (k, r0) :: t, id, r => if k = id then (id, r) :: t else (k, r0) :: upsertRec t id r

/-- Environment of one ingestion run: the embedding provider and two fault
oracles, telling for each item position whether the existence check raises
(`store.get` throwing) and whether the write raises (`save_information`
failing at the storage layer). -/
structure IngestEnv where
  embed : String → Vec
  getFault : Nat → Bool
  writeFault : Nat → Bool

/-- `memory.save_information`: generate the embedding from the item's
content and upsert text + description + embedding as one whole record. -/
def saveInformation (env : IngestEnv) (s : Store) (it : Item) : Store :=
  upsertRec s it.id ⟨it.content, it.title, env.embed it.content⟩

/-- The `already_created` flag of cell 11: `bool(await store.get(...))`
wrapped in `try/except Exception: already_created = False`, so a faulting
probe yields `false` exactly like a missing id. -/
def alreadyCreated (env : IngestEnv) (n : Nat) (s : Store) (id : String) : Bool :=
  if env.getFault n then false else (findRec s id).isSome

/-- Errors an ingestion run can surface to its caller. -/
inductive IngestError where
  | parseFault
  | writeFault (itemIndex : Nat)
deriving DecidableEq

/-- Observable outcome of an ingestion run: final store, texts sent to the
embedding provider (in order), ids written, number of existence checks
attempted, and the error surfaced to the caller, if any. -/
structure IngestOutcome where
  state : Store
  embeds : List String
  writes : List String
  gets : Nat
  err : Option IngestError
deriving DecidableEq

/-- Record one more existence check in front of an outcome. -/
def addGet (o : IngestOutcome) : IngestOutcome :=
  ⟨o.state, o.embeds, o.writes, o.gets + 1, o.err⟩

/-- Record the processing of one freshly saved item in front of an
outcome. -/
def addSaved (it : Item) (o : IngestOutcome) : IngestOutcome :=
  ⟨o.state, it.content :: o.embeds, it.id :: o.writes, o.gets + 1, o.err⟩

/-- The per-item loop of `upsert_data_to_memory_store`. For each item: probe
existence (any probe fault counts as absent); skip if present; otherwise
`save_information` embeds the content and writes the record — the write is
not guarded, so a write fault propagates and aborts the remaining items
(the embedding call for the faulting item has already been made). -/
def ingestLoop (env : IngestEnv) : List Item → Nat → Store → IngestOutcome
  | [], _, s => ⟨s, [], [], 0, none⟩
  | it :: rest, n, s =>
    if alreadyCreated env n s it.id then
      addGet (ingestLoop env rest (n + 1) s)
    else if env.writeFault n then
      ⟨s, [it.content], [], 1, some (.writeFault n)⟩
    else
      addSaved it (ingestLoop env rest (n + 1) (saveInformation env s it))

/-- `upsert_data_to_memory_store`: the whole data file is opened and parsed
by `json.load` before the per-item loop starts; a parse failure raises
before any existence check, embedding call or write. -/
def upsert_data_to_memory_store (env : IngestEnv) (parsed : Except String (List Item))
    (s : Store) : IngestOutcome :=
  match parsed with
  | .error _ => ⟨s, [], [], 0, some .parseFault⟩
  | .ok data => ingestLoop env data 0 s

/-- An environment in which neither the storage probe nor the write ever
faults. -/
def reliableEnv (e : String → Vec) : IngestEnv :=
  ⟨e, fun _ => false, fun _ => false⟩

/-! Basic lemmas about the store operations. -/

theorem findRec_upsertRec (s : Store) (id k : String) (r : MemoryRecord) :
    findRec (upsertRec s id r) k = if id = k then some r else findRec s k := by
  induction s with
  | nil => simp [upsertRec, findRec]
  | cons hd t ih =>
    obtain ⟨k0, r0⟩ := hd
    by_cases h : k0 = id
    · subst h
      by_cases hk : k0 = k
      · subst hk; simp [upsertRec, findRec]
      · simp [upsertRec, findRec, hk]
    · by_cases hk : k0 = k
      · subst hk
        have : ¬ id = k0 := fun hh => h hh.symm
        simp [upsertRec, findRec, h, this]
      · simp [upsertRec, findRec, h, hk, ih]

theorem isSome_findRec_saveInformation (env : IngestEnv) (s : Store) (it : Item)
    (id : String) (h : (findRec s id).isSome) :
    (findRec (saveInformation env s it) id).isSome := by
  unfold saveInformation
  rw [findRec_upsertRec]
  split <;> simp_all

theorem isSome_findRec_ingestLoop (env : IngestEnv) (data : List Item) (n : Nat)
    (s : Store) (id : String) (h : (findRec s id).isSome) :
    (findRec (ingestLoop env data n s).state id).isSome := by
  induction data generalizing n s with
  | nil => simpa [ingestLoop] using h
  | cons it rest ih =>
    rw [ingestLoop]
    split
    · simpa [addGet] using ih (n + 1) s h
    · split
      · simpa using h
      · simpa [addSaved] using
          ih (n + 1) (saveInformation env s it) (isSome_findRec_saveInformation env s it id h)

theorem ingestLoop_mem_present (e : String → Vec) (data : List Item) (n : Nat) (s : Store) :
    ∀ it ∈ data, (findRec (ingestLoop (reliableEnv e) data n s).state it.id).isSome := by
  induction data generalizing n s with
  | nil => simp
  | cons hd rest ih =>
    intro it hit
    rw [ingestLoop]
    by_cases hp : (findRec s hd.id).isSome
    · have hac : alreadyCreated (reliableEnv e) n s hd.id = true := by
        simp [alreadyCreated, reliableEnv, hp]
      rw [if_pos hac]
      rcases List.mem_cons.mp hit with h | h
      · subst h
        simpa [addGet] using isSome_findRec_ingestLoop (reliableEnv e) rest (n + 1) s it.id hp
      · simpa [addGet] using ih (n + 1) s it h
    · have hac : alreadyCreated (reliableEnv e) n s hd.id = false := by
        simp [alreadyCreated, reliableEnv]
        simpa using hp
      rw [if_neg (by simp [hac])]
      rw [if_neg (by simp [reliableEnv])]
      rcases List.mem_cons.mp hit with h | h
      · subst h
        have hsaved : (findRec (saveInformation (reliableEnv e) s it) it.id).isSome := by
          simp [saveInformation, findRec_upsertRec]
        simpa [addSaved] using
          isSome_findRec_ingestLoop (reliableEnv e) rest (n + 1)
            (saveInformation (reliableEnv e) s it) it.id hsaved
      · simpa [addSaved] using ih (n + 1) (saveInformation (reliableEnv e) s hd) it h

theorem ingestLoop_all_present (e : String → Vec) (data : List Item) (n : Nat) (s : Store)
    (h : ∀ it ∈ data, (findRec s it.id).isSome) :
    ingestLoop (reliableEnv e) data n s = ⟨s, [], [], data.length, none⟩ := by
  induction data generalizing n with
  | nil => rfl
  | cons hd rest ih =>
    rw [ingestLoop]
    have hac : alreadyCreated (reliableEnv e) n s hd.id = true := by
      simp [alreadyCreated, reliableEnv, h hd (List.mem_cons_self hd rest)]
    rw [if_pos hac, ih (n + 1) (fun it hit => h it (List.mem_cons_of_mem hd hit))]
    simp [addGet]

/-- C1. Ingestion is idempotent: with a reliable store, running
`upsert_data_to_memory_store` a second time on the same parsed record set
leaves the stored collection unchanged, performs no write, makes zero
embedding calls (every id is already present after the first run), and
reports no error — only the per-item existence checks happen. -/
theorem ingest_idempotent (e : String → Vec) (data : List Item) (s : Store) :
    upsert_data_to_memory_store (reliableEnv e) (.ok data)
        (upsert_data_to_memory_store (reliableEnv e) (.ok data) s).state
      = ⟨(upsert_data_to_memory_store (reliableEnv e) (.ok data) s).state,
         [], [], data.length, none⟩ := by
  unfold upsert_data_to_memory_store
  exact ingestLoop_all_present e data 0 _ (ingestLoop_mem_present e data 0 s)

theorem findRec_preserved_ingestLoop (e : String → Vec) (data : List Item) (n : Nat)
    (s : Store) (id : String) (r : MemoryRecord) (h : findRec s id = some r) :
    findRec (ingestLoop (reliableEnv e) data n s).state id = some r := by
  induction data generalizing n s with
  | nil => simpa [ingestLoop] using h
  | cons it rest ih =>
    rw [ingestLoop]
    cases hac : alreadyCreated (reliableEnv e) n s it.id with
    | true =>
      rw [if_pos rfl]
      simpa [addGet] using ih (n + 1) s h
    | false =>
      rw [if_neg (by simp), if_neg (by simp [reliableEnv])]
      have hfalse : (findRec s it.id).isSome = false := by
        simpa [alreadyCreated, reliableEnv] using hac
      have hne : it.id ≠ id := by
        intro he
        rw [he, h] at hfalse
        simp at hfalse
      have hsave : findRec (saveInformation (reliableEnv e) s it) id = some r := by
        simp [saveInformation, findRec_upsertRec, hne, h]
      simpa [addSaved] using ih (n + 1) (saveInformation (reliableEnv e) s it) hsave

theorem notMem_writes_ingestLoop (e : String → Vec) (data : List Item) (n : Nat)
    (s : Store) (id : String) (h : (findRec s id).isSome = true) :
    id ∉ (ingestLoop (reliableEnv e) data n s).writes := by
  induction data generalizing n s with
  | nil => simp [ingestLoop]
  | cons it rest ih =>
    rw [ingestLoop]
    cases hac : alreadyCreated (reliableEnv e) n s it.id with
    | true =>
      rw [if_pos rfl]
      simpa [addGet] using ih (n + 1) s h
    | false =>
      rw [if_neg (by simp), if_neg (by simp [reliableEnv])]
      have hfalse : (findRec s it.id).isSome = false := by
        simpa [alreadyCreated, reliableEnv] using hac
      have hne : id ≠ it.id := by
        intro he
        rw [← he, h] at hfalse
        simp at hfalse
      simp only [addSaved, List.mem_cons]
      intro hmem
      rcases hmem with he | hm
      · exact hne he
      · exact ih (n + 1) (saveInformation (reliableEnv e) s it)
          (isSome_findRec_saveInformation (reliableEnv e) s it id h) hm

/-- C9. The existence check compares only the id: an id already present in
the store is never re-embedded and never rewritten, whatever the contents
of the input batch — after a reliable run the stored record under that id
is exactly the one stored before, the id is never among the written ids,
and a batch consisting of one item with that id (content and title
arbitrary, in particular different from the stored ones) is a pure skip:
store unchanged, zero embedding calls, zero writes. -/
theorem ingest_skips_existing_id (e : String → Vec) (data : List Item) (s : Store)
    (id : String) (r : MemoryRecord) (it : Item) (h : findRec s id = some r)
    (hit : it.id = id) :
    findRec (upsert_data_to_memory_store (reliableEnv e) (.ok data) s).state id = some r ∧
    id ∉ (upsert_data_to_memory_store (reliableEnv e) (.ok data) s).writes ∧
    upsert_data_to_memory_store (reliableEnv e) (.ok [it]) s = ⟨s, [], [], 1, none⟩ := by
  have h1 : upsert_data_to_memory_store (reliableEnv e) (.ok data) s
      = ingestLoop (reliableEnv e) data 0 s := rfl
  have h2 : upsert_data_to_memory_store (reliableEnv e) (.ok [it]) s
      = ingestLoop (reliableEnv e) [it] 0 s := rfl
  refine ⟨?_, ?_, ?_⟩
  · rw [h1]
    exact findRec_preserved_ingestLoop e data 0 s id r h
  · rw [h1]
    exact notMem_writes_ingestLoop e data 0 s id (by simp [h])
  · rw [h2, ingestLoop]
    have hac : alreadyCreated (reliableEnv e) 0 s it.id = true := by
      simp [alreadyCreated, reliableEnv, hit, h]
    rw [if_pos hac]
    simp [ingestLoop, addGet]

/-- A record stored before the skipping run; its content and title differ
from the later input item of the witness. -/
def recA : MemoryRecord := ⟨"old content", "old title", [(3 : ℚ)]⟩

/-- A concrete embedding provider for witnesses. -/
def embed0 : String → Vec := fun t => [(t.length : ℚ)]

/-- Witness for C9 at a concrete input: the store holds id "a" with
`recA`; ingesting an item with id "a" but different content and title
leaves the stored record intact, never writes "a", and as a one-item batch
is a pure skip. -/
theorem ingest_skips_existing_id_witness :
    findRec (upsert_data_to_memory_store (reliableEnv embed0)
        (.ok [⟨"a", "new content", "new title"⟩]) [("a", recA)]).state "a" = some recA ∧
    "a" ∉ (upsert_data_to_memory_store (reliableEnv embed0)
        (.ok [⟨"a", "new content", "new title"⟩]) [("a", recA)]).writes ∧
    upsert_data_to_memory_store (reliableEnv embed0)
        (.ok [⟨"a", "new content", "new title"⟩]) [("a", recA)]
      = ⟨[("a", recA)], [], [], 1, none⟩ :=
  ingest_skips_existing_id embed0 [⟨"a", "new content", "new title"⟩] [("a", recA)]
    "a" recA ⟨"a", "new content", "new title"⟩ (by decide) rfl

/-- C10. A data file that cannot be opened or parsed raises before the
per-item loop: the store is unchanged and no existence check, embedding
call or write happens. -/
theorem parse_fault_leaves_store_unchanged (env : IngestEnv) (s : Store) (msg : String) :
    upsert_data_to_memory_store env (.error msg) s = ⟨s, [], [], 0, some .parseFault⟩ :=
  rfl

theorem ingestLoop_no_write_fault (env : IngestEnv) (hw : ∀ k, env.writeFault k = false) :
    ∀ (data : List Item) (n : Nat) (s : Store),
      (ingestLoop env data n s).err = none ∧ (ingestLoop env data n s).gets = data.length := by
  intro data
  induction data with
  | nil => intro n s; simp [ingestLoop]
  | cons it rest ih =>
    intro n s
    rw [ingestLoop]
    split
    · simpa [addGet] using ih (n + 1) s
    · rw [if_neg (by simp [hw n])]
      simpa [addSaved] using ih (n + 1) (saveInformation env s it)

theorem ingestLoop_get_fault_item (env : IngestEnv) (hw : ∀ k, env.writeFault k = false) :
    ∀ (data : List Item) (n : Nat) (s : Store) (j : Nat) (hj : j < data.length),
      env.getFault (n + j) = true →
      (data.get ⟨j, hj⟩).content ∈ (ingestLoop env data n s).embeds ∧
      (data.get ⟨j, hj⟩).id ∈ (ingestLoop env data n s).writes := by
  intro data
  induction data with
  | nil => intro n s j hj; exact absurd hj (by simp)
  | cons it rest ih =>
    intro n s j hj hf
    match j with
    | 0 =>
      rw [ingestLoop]
      have hn : env.getFault n = true := by simpa using hf
      have hac : alreadyCreated env n s it.id = false := by
        simp [alreadyCreated, hn]
      rw [if_neg (by simp [hac]), if_neg (by simp [hw n])]
      simp [addSaved]
    | j + 1 =>
      have hf2 : env.getFault ((n + 1) + j) = true := by
        rw [show (n + 1) + j = n + (j + 1) by omega]
        exact hf
      have hj2 : j < rest.length := Nat.lt_of_succ_lt_succ hj
      rw [ingestLoop]
      cases hac : alreadyCreated env n s it.id with
      | true =>
        rw [if_pos rfl]
        simpa [addGet] using ih (n + 1) s j hj2 hf2
      | false =>
        rw [if_neg (by simp), if_neg (by simp [hw n])]
        have hrec := ih (n + 1) (saveInformation env s it) j hj2 hf2
        refine ⟨?_, ?_⟩
        · simp only [addSaved, List.get_cons_succ, List.mem_cons]
          exact Or.inr hrec.1
        · simp only [addSaved, List.get_cons_succ, List.mem_cons]
          exact Or.inr hrec.2

/-- C4. Every fault of the existence check is recovered locally: with
reliable writes, no ingestion error ever reaches the caller and every item
of the batch gets its existence check (the batch is never blocked),
whatever probes fault; and the item at any position whose probe faults is
treated as absent — its content is sent to the embedding provider and its
id is written. -/
theorem get_fault_treated_as_absent (e : String → Vec) (gf : Nat → Bool)
    (data : List Item) (s : Store) (j : Nat) (hj : j < data.length) (h : gf j = true) :
    (upsert_data_to_memory_store ⟨e, gf, fun _ => false⟩ (.ok data) s).err = none ∧
    (upsert_data_to_memory_store ⟨e, gf, fun _ => false⟩ (.ok data) s).gets = data.length ∧
    (data.get ⟨j, hj⟩).content
      ∈ (upsert_data_to_memory_store ⟨e, gf, fun _ => false⟩ (.ok data) s).embeds ∧
    (data.get ⟨j, hj⟩).id
      ∈ (upsert_data_to_memory_store ⟨e, gf, fun _ => false⟩ (.ok data) s).writes := by
  have h1 : upsert_data_to_memory_store ⟨e, gf, fun _ => false⟩ (.ok data) s
      = ingestLoop ⟨e, gf, fun _ => false⟩ data 0 s := rfl
  obtain ⟨he, hg⟩ := ingestLoop_no_write_fault ⟨e, gf, fun _ => false⟩ (fun _ => rfl) data 0 s
  obtain ⟨hm1, hm2⟩ := ingestLoop_get_fault_item ⟨e, gf, fun _ => false⟩ (fun _ => rfl)
    data 0 s j hj (by simpa using h)
  rw [h1]
  exact ⟨he, hg, hm1, hm2⟩

/-- Witness for C4 at a concrete input: the probe for the second item
faults; that item is re-embedded and written, both items get their checks
and no error is surfaced. -/
theorem get_fault_treated_as_absent_witness :
    (upsert_data_to_memory_store ⟨embed0, fun n => n == 1, fun _ => false⟩
        (.ok [⟨"a", "content a", "title a"⟩, ⟨"b", "content b", "title b"⟩]) []).err = none ∧
    (upsert_data_to_memory_store ⟨embed0, fun n => n == 1, fun _ => false⟩
        (.ok [⟨"a", "content a", "title a"⟩, ⟨"b", "content b", "title b"⟩]) []).gets = 2 ∧
    "content b" ∈ (upsert_data_to_memory_store ⟨embed0, fun n => n == 1, fun _ => false⟩
        (.ok [⟨"a", "content a", "title a"⟩, ⟨"b", "content b", "title b"⟩]) []).embeds ∧
    "b" ∈ (upsert_data_to_memory_store ⟨embed0, fun n => n == 1, fun _ => false⟩
        (.ok [⟨"a", "content a", "title a"⟩, ⟨"b", "content b", "title b"⟩]) []).writes :=
  get_fault_treated_as_absent embed0 (fun n => n == 1)
    [⟨"a", "content a", "title a"⟩, ⟨"b", "content b", "title b"⟩] [] 1 (by decide) rfl

/-- Counterexample to C5 as stated: with a write fault at the first item of
a two-item batch over an empty store, the run stops with the write fault
surfaced to the caller, only one existence check was attempted (the second
item is never examined), and nothing was written — the pipeline does not
report the item as failed and continue with the remaining items. -/
theorem write_fault_halts_batch_cex :
    upsert_data_to_memory_store ⟨embed0, fun _ => false, fun n => n == 0⟩
        (.ok [⟨"a", "content a", "title a"⟩, ⟨"b", "content b", "title b"⟩]) []
      = ⟨[], ["content a"], [], 1, some (.writeFault 0)⟩ := by
  decide

/-- C5 amended. A storage write fault is not contained to the affected
item: the exception from `save_information` propagates out of
`upsert_data_to_memory_store`, the faulting item is not written (its
embedding call has already been made), and no subsequent item is checked
or ingested; the store keeps exactly what had been written before the
fault. Stated for a fault at the first, absent item. -/
theorem write_fault_aborts_batch (e : String → Vec) (gf : Nat → Bool) (it : Item)
    (rest : List Item) (s : Store) (hg : gf 0 = false) (habs : findRec s it.id = none) :
    upsert_data_to_memory_store ⟨e, gf, fun n => n == 0⟩ (.ok (it :: rest)) s
      = ⟨s, [it.content], [], 1, some (.writeFault 0)⟩ := by
  have h1 : upsert_data_to_memory_store ⟨e, gf, fun n => n == 0⟩ (.ok (it :: rest)) s
      = ingestLoop ⟨e, gf, fun n => n == 0⟩ (it :: rest) 0 s := rfl
  rw [h1, ingestLoop]
  have hac : alreadyCreated ⟨e, gf, fun n => n == 0⟩ 0 s it.id = false := by
    simp [alreadyCreated, hg, habs]
  rw [if_neg (by simp [hac]), if_pos (by simp)]

/-- Witness for the amended C5 at a concrete input. -/
theorem write_fault_aborts_batch_witness :
    upsert_data_to_memory_store ⟨embed0, fun _ => false, fun n => n == 0⟩
        (.ok [⟨"c", "content c", "title c"⟩]) []
      = ⟨[], ["content c"], [], 1, some (.writeFault 0)⟩ :=
  write_fault_aborts_batch embed0 (fun _ => false) ⟨"c", "content c", "title c"⟩ [] []
    rfl rfl

/-- The stored-record consistency invariant of the data model: every record
in the store carries the embedding computed from its own text by the run's
embedding provider. -/
def StoreInv (e : String → Vec) (s : Store) : Prop :=
  ∀ k r, findRec s k = some r → r.embedding = e r.text

theorem storeInv_saveInformation (env : IngestEnv) (s : Store) (it : Item)
    (h : StoreInv env.embed s) : StoreInv env.embed (saveInformation env s it) := by
  intro k r hk
  unfold saveInformation at hk
  rw [findRec_upsertRec] at hk
  split at hk
  · cases hk; rfl
  · exact h k r hk

theorem storeInv_ingestLoop (env : IngestEnv) (data : List Item) (n : Nat) (s : Store)
    (h : StoreInv env.embed s) : StoreInv env.embed (ingestLoop env data n s).state := by
  induction data generalizing n s with
  | nil => simpa [ingestLoop] using h
  | cons it rest ih =>
    rw [ingestLoop]
    split
    · simpa [addGet] using ih (n + 1) s h
    · split
      · simpa using h
      · simpa [addSaved] using
          ih (n + 1) (saveInformation env s it) (storeInv_saveInformation env s it h)

/-- C7. Content and embedding never diverge: writes are whole-record
(`save_information` stores text, description and the embedding generated
from that text together), so from any store satisfying the invariant —
every stored record's embedding is the run's embedding of its own text —
any ingestion run (faulty or not, parse error or not) preserves it; there
is no path that stores content without its vector or updates one without
the other. -/
theorem ingest_embedding_invariant (env : IngestEnv) (parsed : Except String (List Item))
    (s : Store) (h : StoreInv env.embed s) :
    StoreInv env.embed (upsert_data_to_memory_store env parsed s).state := by
  match parsed with
  | .error msg => simpa [upsert_data_to_memory_store] using h
  | .ok data => simpa [upsert_data_to_memory_store] using storeInv_ingestLoop env data 0 s h

/-- Witness for C7 at a concrete input: starting from the empty store
(which satisfies the invariant vacuously), ingesting a concrete batch
yields a store satisfying the invariant. -/
theorem ingest_embedding_invariant_witness :
    StoreInv (reliableEnv embed0).embed
      (upsert_data_to_memory_store (reliableEnv embed0)
        (.ok [⟨"a", "content a", "title a"⟩, ⟨"b", "content b", "title b"⟩]) []).state :=
  ingest_embedding_invariant (reliableEnv embed0)
    (.ok [⟨"a", "content a", "title a"⟩, ⟨"b", "content b", "title b"⟩]) []
    (fun k r hk => by simp [findRec] at hk)

/-- One retrieval result of `memory.search`, as the loop consumes it. -/
structure RetrievalResult where
  text : String
  relevance : ℚ
  additional_metadata : Option String
deriving DecidableEq

/-- The argument object bound for `chat_function` at each invocation site:
`sk.KernelArguments(query_term=..., db_record=...)`. -/
structure KernelArguments where
  query_term : String
  db_record : Option String
deriving DecidableEq

/-- Observable events of the conversation loop of cell 41, in program
order: reading input, calling `memory.search`, invoking the chat function
(with the arguments it binds), and the IndexError raised by `result[0]` on
an empty result list. -/
inductive LoopEvent where
  | readInput (q : String)
  | searchCall (q : String)
  | completionCall (args : KernelArguments)
  | indexErrorCrash
deriving DecidableEq

/-- The conversation loop of cell 41, as the trace of events produced when
the given inputs are typed. `query_term` starts as `""`, the while
condition is `query_term != "exit"`, and the body reads the next input,
searches, indexes `result[0]` (raising IndexError when the search returned
nothing, which aborts the session) and invokes
`kernel.invoke_stream(chat_function, args)` — only then is the condition
rechecked, so the body runs in full for the input `"exit"` as well. -/
def conversationLoop (search : String → List RetrievalResult) : List String → List LoopEvent
  | [] => []
  | q :: rest =>
    LoopEvent.readInput q ::
    LoopEvent.searchCall q ::
    match search q with
    | [] => [LoopEvent.indexErrorCrash]
    | r :: _ =>
      LoopEvent.completionCall ⟨q, r.additional_metadata⟩ ::
      if q = "exit" then [] else conversationLoop search rest

/-- A concrete retrieval result for counterexamples and witnesses. -/
def r0 : RetrievalResult := ⟨"stored text", (1 : ℚ), some "full record"⟩

/-- Counterexample to C2 as stated: feeding `"exit"` as input, the loop
still calls retrieval and completion for that input before terminating —
the trace of the session contains a search call and a completion call for
`"exit"`, so the transition to the terminal state is not taken before the
retrieval/completion work. -/
theorem exit_input_still_retrieved_cex :
    LoopEvent.searchCall "exit" ∈ conversationLoop (fun _ => [r0]) ["exit"] ∧
    LoopEvent.completionCall ⟨"exit", some "full record"⟩
      ∈ conversationLoop (fun _ => [r0]) ["exit"] := by
  decide

/-- C2 amended. The sentinel is the condition of the `while` loop, checked
only at the start of the next iteration: on reading `"exit"` the loop still
performs the retrieval and the completion for that input, and only then
terminates — no later input is processed, and the events of the `"exit"`
turn are exactly read, search, completion. -/
theorem exit_turn_processed_then_done (search : String → List RetrievalResult)
    (rest : List String) (r : RetrievalResult) (rs : List RetrievalResult)
    (h : search "exit" = r :: rs) :
    conversationLoop search ("exit" :: rest)
      = [LoopEvent.readInput "exit", LoopEvent.searchCall "exit",
         LoopEvent.completionCall ⟨"exit", r.additional_metadata⟩] := by
  rw [conversationLoop, h]
  simp

/-- Witness for the amended C2 at a concrete input: a later input remains
unprocessed once `"exit"` has been read. -/
theorem exit_turn_processed_then_done_witness :
    conversationLoop (fun _ => [r0]) ["exit", "never reached"]
      = [LoopEvent.readInput "exit", LoopEvent.searchCall "exit",
         LoopEvent.completionCall ⟨"exit", some "full record"⟩] :=
  exit_turn_processed_then_done (fun _ => [r0]) ["never reached"] r0 [] rfl

/-- C3. The code faults on empty retrieval: when `memory.search` returns
zero results, the loop evaluates `result[0].additional_metadata` on an
empty sequence and raises IndexError, aborting the session instead of
producing a defined, reported no-context outcome. -/
theorem empty_retrieval_out_of_range :
    conversationLoop (fun _ => []) ["hi"]
      = [LoopEvent.readInput "hi", LoopEvent.searchCall "hi",
         LoopEvent.indexErrorCrash] := by
  decide

/-- The binding performed by the non-streaming invocation site (cells 31,
38): search the current query, then bind `query_term` and
`db_record := result[0].additional_metadata`; `none` marks the IndexError
that an empty result would raise there as well. -/
def singleShotArgs (search : String → List RetrievalResult) (q : String) :
    Option KernelArguments :=
  match search q with
  | [] => none
  | r :: _ => some ⟨q, r.additional_metadata⟩

/-- C6. Grounding fidelity: every completion the loop invokes binds
`db_record` to exactly the metadata of the top result of the search made
for the current query in that same turn — never a stale or default value —
and its arguments coincide with what the non-streaming invocation site
would bind for that query; the two delivery modes share the binding. -/
theorem grounding_fidelity (search : String → List RetrievalResult)
    (inputs : List String) (a : KernelArguments)
    (h : LoopEvent.completionCall a ∈ conversationLoop search inputs) :
    (∃ r rs, search a.query_term = r :: rs ∧ a.db_record = r.additional_metadata) ∧
    singleShotArgs search a.query_term = some a := by
  induction inputs with
  | nil => simp [conversationLoop] at h
  | cons q rest ih =>
    rw [conversationLoop] at h
    rcases List.mem_cons.mp h with h1 | h1
    · exact absurd h1 (by simp)
    rcases List.mem_cons.mp h1 with h2 | h2
    · exact absurd h2 (by simp)
    rcases hq : search q with _ | ⟨r, rs⟩
    · rw [hq] at h2
      rcases List.mem_singleton.mp h2 with h3
      exact absurd h3 (by simp)
    · rw [hq] at h2
      rcases List.mem_cons.mp h2 with h3 | h3
      · cases h3
        refine ⟨⟨r, rs, hq, rfl⟩, ?_⟩
        simp [singleShotArgs, hq]
      · by_cases hexit : q = "exit"
        · rw [if_pos hexit] at h3
          exact absurd h3 (by simp)
        · rw [if_neg hexit] at h3
          exact ih h3

/-- Witness for C6 at a concrete input: the completion invoked for the
query `"hi"` binds the metadata of the top result for `"hi"`, and matches
the non-streaming binding. -/
theorem grounding_fidelity_witness :
    (∃ r rs, [r0] = r :: rs ∧ (some "full record" : Option String) = r.additional_metadata) ∧
    singleShotArgs (fun _ => [r0]) "hi" = some ⟨"hi", some "full record"⟩ :=
  grounding_fidelity (fun _ => [r0]) ["hi"] ⟨"hi", some "full record"⟩ (by decide)

/-- A search hit tagged with the insertion index of the stored record it
was scored from, so that tie-breaking by insertion order can be stated. -/
structure ScoredHit where
  insertionIdx : Nat
  hit : RetrievalResult
deriving DecidableEq

/-- Modelled from the spec: the ranking order of the vector store's
similarity search (§4.1) — `a` is ranked at or before `b` when `a` scored
strictly higher relevance, or the same relevance and an insertion index at
most `b`'s (stable tie-break). -/
def hitBefore (a b : ScoredHit) : Prop :=
  b.hit.relevance < a.hit.relevance ∨
    (a.hit.relevance = b.hit.relevance ∧ a.insertionIdx ≤ b.insertionIdx)

instance : DecidableRel hitBefore := fun a b => by
  unfold hitBefore
  infer_instance

instance : IsTotal ScoredHit hitBefore :=
  ⟨fun a b => by
    unfold hitBefore
    rcases lt_trichotomy a.hit.relevance b.hit.relevance with h | h | h
    · exact Or.inr (Or.inl h)
    · rcases Nat.le_total a.insertionIdx b.insertionIdx with hn | hn
      · exact Or.inl (Or.inr ⟨h, hn⟩)
      · exact Or.inr (Or.inr ⟨h.symm, hn⟩)
    · exact Or.inl (Or.inl h)⟩

instance : IsTrans ScoredHit hitBefore :=
  ⟨fun a b c hab hbc => by
    unfold hitBefore at hab hbc ⊢
    rcases hab with h1 | ⟨h1, h1i⟩ <;> rcases hbc with h2 | ⟨h2, h2i⟩
    · exact Or.inl (h2.trans h1)
    · exact Or.inl (lt_of_eq_of_lt h2.symm h1)
    · exact Or.inl (lt_of_lt_of_eq h2 h1.symm)
    · exact Or.inr ⟨h1.trans h2, h1i.trans h2i⟩⟩

/-- Modelled from the spec: scoring of the stored records under the
collection's configured metric (cosine similarity in this deployment,
`similarity = "COS"`; the metric is a parameter here), each record tagged
with its insertion index and turned into the RetrievalResult the caller
sees. -/
def scoredEntries (metric : Vec → Vec → ℚ) (qv : Vec) (stored : Store) : List ScoredHit :=
  stored.enum.map fun p => ⟨p.1, ⟨p.2.2.text, metric qv p.2.2.embedding, some p.2.2.description⟩⟩

/-- Modelled from the spec: `memory.search` — the similarity search itself
runs inside Azure Cosmos DB / the semantic kernel connector, outside this
repository, so §4.1's contract is modelled directly: score every stored
record against the query vector, order by descending relevance with ties
broken by insertion order (a stable sort), and return the first `top_k`
results. -/
def vectorSearch (metric : Vec → Vec → ℚ) (qv : Vec) (stored : Store) (top_k : Nat) :
    List ScoredHit :=
  (List.insertionSort hitBefore (scoredEntries metric qv stored)).take top_k

/-- C8. Ranking order: for every fixed query vector, stored collection,
metric and `top_k`, the results of `vectorSearch` are pairwise ordered by
non-increasing relevance, and any two results of equal relevance appear in
strictly increasing insertion order (stable tie-break). -/
theorem search_ranking (metric : Vec → Vec → ℚ) (qv : Vec) (stored : Store) (top_k : Nat) :
    (vectorSearch metric qv stored top_k).Pairwise
      (fun a b => b.hit.relevance ≤ a.hit.relevance ∧
        (b.hit.relevance = a.hit.relevance → a.insertionIdx < b.insertionIdx)) := by
  have hsorted : (List.insertionSort hitBefore (scoredEntries metric qv stored)).Pairwise
      hitBefore := List.sorted_insertionSort hitBefore (scoredEntries metric qv stored)
  have hperm := List.perm_insertionSort hitBefore (scoredEntries metric qv stored)
  have hcomp : (scoredEntries metric qv stored).map ScoredHit.insertionIdx
      = stored.enum.map Prod.fst := by
    unfold scoredEntries
    rw [List.map_map]
    rfl
  have hnd0 : ((scoredEntries metric qv stored).map ScoredHit.insertionIdx).Nodup := by
    rw [hcomp]
    exact List.nodup_enum_map_fst stored
  have hnds : ((List.insertionSort hitBefore (scoredEntries metric qv stored)).map
      ScoredHit.insertionIdx).Nodup :=
    ((hperm.map ScoredHit.insertionIdx).symm).nodup hnd0
  have hne : (List.insertionSort hitBefore (scoredEntries metric qv stored)).Pairwise
      (fun a b => a.insertionIdx ≠ b.insertionIdx) := List.pairwise_map.mp hnds
  have hmain : (List.insertionSort hitBefore (scoredEntries metric qv stored)).Pairwise
      (fun a b => b.hit.relevance ≤ a.hit.relevance ∧
        (b.hit.relevance = a.hit.relevance → a.insertionIdx < b.insertionIdx)) := by
    refine hsorted.imp₂ (fun a b hab hne2 => ?_) hne
    rcases hab with hlt | ⟨heq, hle⟩
    · exact ⟨le_of_lt hlt, fun he => absurd he (ne_of_lt hlt)⟩
    · exact ⟨heq.ge, fun _ => lt_of_le_of_ne hle hne2⟩
  exact List.Pairwise.sublist (List.take_sublist top_k _) hmain

end RagNotebook
